import Mathlib

/-
  Verification of google/LLpatch (kernel livepatch generator).

  Shallow embedding of the pipeline stages that the checked claims are
  about: the thin-archive symbol index (src/thin_archive.cc), the fixup
  stage (src/fixup_command.cc, src/elf_bin.cc), the gen stage
  (src/gen_command.cc), the diff stage (src/diff_command.cc) and the
  align stage (src/align_command.cc).  C++ strings are modelled by Lean
  `String` (in this toolchain a wrapper around `List Char`); `unsigned`
  and `size_t` arithmetic is modelled on `Nat`/`Int` with explicit
  `% 2^32` / `% 2^64` where conversions or wrap-around matter; thrown
  `std::error_code`s and error returns are both modelled with `Except`.
-/

set_option maxRecDepth 4000

/-! ## String helpers (models of std::string / llvm::StringRef operations) -/

/-- Model of `line.substr(0, line.find(c))`: the characters strictly before
the first occurrence of `c` (the whole string when `c` does not occur). -/
def strTakeUntil (c : Char) (s : String) : String :=
  String.mk (s.toList.takeWhile (fun x => x ≠ c))

/-- The characters from the first occurrence of `c` on (inclusive);
empty when `c` does not occur. -/
def strDropUntil (c : Char) (s : String) : String :=
  String.mk (s.toList.dropWhile (fun x => x ≠ c))

/-- Model of `llvm::StringRef::startswith` / `s.find(p) == 0`. -/
def strStartsWith (s p : String) : Bool :=
  List.isPrefixOf p.toList s.toList

/-- Model of `s.find(needle) != std::string::npos`: `needle` occurs
somewhere in `hay` as a contiguous substring. -/
def containsSubLit (needle hay : String) : Bool :=
  (List.range (hay.toList.length + 1)).any
    (fun i => List.isPrefixOf needle.toList (hay.toList.drop i))

/-- Model of `llvm::StringRef::split(sep)` for a character separator:
split at the first occurrence; when the separator does not occur the
result is `(s, "")`. -/
def strSplitFirst (sep : Char) (s : String) : String × String :=
  let cs := s.toList
  if cs.any (fun x => x = sep) then
    (String.mk (cs.takeWhile (fun x => x ≠ sep)),
     String.mk ((cs.dropWhile (fun x => x ≠ sep)).drop 1))
  else (s, "")

/-- First component of `llvm::StringRef::rsplit(sep)`: everything strictly
before the last occurrence of `sep`; the whole string when `sep` does not
occur. -/
def strRSplitFirstPart (sep : Char) (s : String) : String :=
  let cs := s.toList
  if cs.any (fun x => x = sep) then
    String.mk (((cs.reverse.dropWhile (fun x => x ≠ sep)).drop 1).reverse)
  else s

/-- Model of `std::istringstream` + `std::getline(iss, token, sep)`:
split on every occurrence of `sep` (consecutive separators yield empty
tokens, as with `getline`). -/
def splitCharsAux (sep : Char) : List Char → List Char → List (List Char)
  | [], acc => [acc.reverse]
  | c :: cs, acc =>
      if c = sep then acc.reverse :: splitCharsAux sep cs []
      else splitCharsAux sep cs (c :: acc)

/-- String-level wrapper for `splitCharsAux`. -/
def splitTokens (sep : Char) (s : String) : List String :=
  (splitCharsAux sep s.toList []).map String.mk

/-- Numeric value of a decimal digit character. -/
def charDigitVal (c : Char) : Nat := c.toNat - ('0').toNat

/-- Model of `std::stoi` on the inputs the tool feeds it: a non-empty
all-digit string.  (On malformed input `std::stoi` throws; such inputs
are outside the modelled domain and map to 0 here.) -/
def parseNatDigits (s : String) : Nat :=
  let cs := s.toList
  if cs ≠ [] ∧ cs.all (fun c => c.isDigit) then
    cs.foldl (fun n c => n * 10 + charDigitVal c) 0
  else 0

/-- Model of `size_t` subtraction `a - b` (wrap-around modulo `2^64`); the
operands the tool produces are below `2^64`. -/
def usub64 (a b : Nat) : Nat := (a + 2 ^ 64 - b) % 2 ^ 64

/-! ## Error codes

`Command::ErrorCode` from src/command.h and `ElfErrorCode` from
src/elf_error.h.  `main()` (src/main.cc) prints the message and returns
`ec.value()` as the process exit code, both for error returns and for
thrown `std::error_code`s. -/

/-- Model of `Command::ErrorCode` (src/command.h lines 32-45). -/
inductive ErrorCode where
  | NO_ERROR
  | INVALID_COMMAND
  | NOT_ENOUGH_ARGS
  | INVALID_LLVM_FILE
  | DIFF_FAILED
  | FILE_OPEN_FAILED
  | INVALID_PATCH_FILE
  | NOTHING_TO_PATCH
  | SYM_FIND_FAILED
  | INVALID_SYM_MAP
  | ALIAS_FIND_FAILED
  | NO_SYM_MAP
  deriving DecidableEq

/-- The numeric enum value of a `Command::ErrorCode` (equals the process
exit code when the command fails with it). -/
def ErrorCode.val : ErrorCode → Nat
  | .NO_ERROR => 0
  | .INVALID_COMMAND => 1
  | .NOT_ENOUGH_ARGS => 2
  | .INVALID_LLVM_FILE => 3
  | .DIFF_FAILED => 4
  | .FILE_OPEN_FAILED => 5
  | .INVALID_PATCH_FILE => 6
  | .NOTHING_TO_PATCH => 7
  | .SYM_FIND_FAILED => 8
  | .INVALID_SYM_MAP => 9
  | .ALIAS_FIND_FAILED => 10
  | .NO_SYM_MAP => 11

/-- Model of `ElfErrorCode` (src/elf_error.h lines 28-37).  The constructor
`KLP_PREFIX_INVALID` models the source's `INVALID_KLP_PREFIX` (enum
value 0x1002). -/
inductive ElfErrCode where
  | CUSTOM_ERROR
  | NO_SYMTAB
  | KLP_PREFIX_INVALID
  | INVALID_ELF_SYMBOL
  | NO_RELA_SECTION
  | RELA_SECTION_NOT_FOUND
  | SAME_SYMBOL_FILENAME
  deriving DecidableEq

/-- Numeric enum value of an `ElfErrorCode` (custom codes start at 0x1000). -/
def ElfErrCode.val : ElfErrCode → Nat
  | .CUSTOM_ERROR => 0x1000
  | .NO_SYMTAB => 0x1001
  | .KLP_PREFIX_INVALID => 0x1002
  | .INVALID_ELF_SYMBOL => 0x1003
  | .NO_RELA_SECTION => 0x1004
  | .RELA_SECTION_NOT_FOUND => 0x1005
  | .SAME_SYMBOL_FILENAME => 0x1006

/-- A `std::error_code` carried by either error category of the tool. -/
inductive KlpError where
  | cmd (e : ErrorCode)
  | elf (e : ElfErrCode)
  deriving DecidableEq

/-- Model of `error_code.value()` of a `KlpError`. -/
def KlpError.val : KlpError → Nat
  | .cmd e => e.val
  | .elf e => e.val

/-- Exit code of `main()` (src/main.cc lines 27-42): 0 on success,
otherwise the numeric value of the error code, whether returned from
`Command::Run()` or thrown as an exception. -/
def mainExitCode {α : Type} : Except KlpError α → Nat
  | .ok _ => 0
  | .error e => e.val

/-! ## Thin-archive symbol index (src/thin_archive.cc)

The constructor reads the `nm -f posix` dump line by line, twice.  The
input is modelled as the list of its lines. -/

/-- Model of `ParseSymbolLine` (src/thin_archive.cc lines 37-53).  Symbol name =
characters before the first space; symbol type = first non-space
character after it, uppercased, with `V` folded to `W`; `?` when the
line holds no space.  (A line whose last non-space character is followed
only by spaces would make the C++ `line.at` throw; such lines are
outside the modelled domain.) -/
def parseSymbolLine (line : String) : String × Char :=
  let symbolName := strTakeUntil ' ' line
  let rest := (strDropUntil ' ' line).toList
  let ty :=
    if rest.isEmpty then '?'
    else
      match rest.dropWhile (fun x => x = ' ') with
      | [] => '?'
      | c :: _ => c.toUpper
  (symbolName, if ty = 'V' then 'W' else ty)

/-- Model of `std::regex_match(line, ".+\.a\[.+\.o\]:")` used to detect
object-file marker lines such as `built-in.a[arch/x86/kernel/head_64.o]:`
(src/thin_archive.cc line 109): the whole line decomposes as
`A ++ ".a[" ++ B ++ ".o]:"` with `A` and `B` non-empty. -/
def isArchiveMarker (line : String) : Bool :=
  let cs := line.toList
  let n := cs.length
  decide (4 ≤ n) &&
  decide ((cs.drop (n - 4)) = [ '.', 'o', ']', ':' ]) &&
  (List.range n).any
    (fun i => decide (1 ≤ i) && decide (i + 8 ≤ n) &&
      decide ((cs.drop i).take 3 = [ '.', 'a', '[' ]))

/-- Filename extraction from a marker line (src/thin_archive.cc lines
116-119): the text between the first `[` and the following `]`.  (The
pathological case of a `]` before the first `[` - where the C++ count
wraps - is outside the modelled domain.) -/
def markerFilename (line : String) : String :=
  String.mk (((line.toList.dropWhile (fun x => x ≠ '[')).drop 1).takeWhile
    (fun x => x ≠ ']'))

/-- Insertion into an `unordered_set` modelled as a duplicate-free list. -/
def insertSet (x : String) (s : List String) : List String :=
  if x ∈ s then s else s ++ [x]

/-- State of the first constructor pass (src/thin_archive.cc lines
72-100): `unique_symbols_`, `non_weak_symbols`, `dup_symbols`. -/
structure ThinPass1State where
  unique : List String
  nonWeak : List String
  dups : List String
  deriving DecidableEq

/-- One line of the first pass (src/thin_archive.cc lines 77-100).  Note
that the pass parses every line, marker lines included. -/
def thinArchivePass1Step (st : ThinPass1State) (line : String) : ThinPass1State :=
  let p := parseSymbolLine line
  let symbolName := p.1
  let symbolType := p.2
  if symbolName ∉ st.unique then
    { st with
      unique := insertSet symbolName st.unique,
      nonWeak := if symbolType ≠ 'W' then insertSet symbolName st.nonWeak
                 else st.nonWeak }
  else if symbolType = 'W' then st
  else
    { st with
      dups := if symbolName ∈ st.nonWeak then insertSet symbolName st.dups
              else st.dups,
      nonWeak := insertSet symbolName st.nonWeak }

/-- The first pass over all lines. -/
def thinArchivePass1 (lines : List String) : ThinPass1State :=
  lines.foldl thinArchivePass1Step ⟨[], [], []⟩

/-- Model of `unordered_map<string, vector<string>>::operator[] ... push_back`
on an association list: append to the entry of `k`, creating it when
absent. -/
def pushBack {κ α : Type} [DecidableEq κ] :
    List (κ × List α) → κ → α → List (κ × List α)
  | [], k, v => [(k, [v])]
  | (k', vs) :: rest, k, v =>
      if k' = k then (k', vs ++ [v]) :: rest
      else (k', vs) :: pushBack rest k v

/-- Lookup in an association list (`unordered_map::find`). -/
def lookupAssoc {κ α : Type} [DecidableEq κ] :
    List (κ × List α) → κ → Option (List α)
  | [], _ => none
  | (k', vs) :: rest, k => if k' = k then some vs else lookupAssoc rest k

/-- State of the second constructor pass (src/thin_archive.cc lines
105-147): `current_filename`, `same_sym_file`, `duplicated_symbols_`. -/
structure ThinPass2State where
  currentFilename : String
  sameSymFile : List String
  dupMap : List (String × List String)
  deriving DecidableEq

/-- The second pass (src/thin_archive.cc lines 107-147): track the
current object file from marker lines; for every line whose symbol is
not in `unique_symbols_`, record the file under the symbol, failing with
`SAME_SYMBOL_FILENAME` when the same symbol+filename combination
repeats. -/
def thinArchivePass2 (unique : List String) :
    ThinPass2State → List String → Except KlpError ThinPass2State
  | st, [] => .ok st
  | st, line :: rest =>
      if isArchiveMarker line then
        thinArchivePass2 unique { st with currentFilename := markerFilename line } rest
      else
        let symbolName := strTakeUntil ' ' line
        if symbolName ∈ unique then thinArchivePass2 unique st rest
        else
          let symFile := symbolName ++ st.currentFilename
          if symFile ∈ st.sameSymFile then
            .error (KlpError.elf ElfErrCode.SAME_SYMBOL_FILENAME)
          else
            thinArchivePass2 unique
              { st with
                sameSymFile := symFile :: st.sameSymFile,
                dupMap := pushBack st.dupMap symbolName st.currentFilename } rest

/-- The thin-archive index: `unique_symbols_` and `duplicated_symbols_`
(src/thin_archive.h). -/
structure ThinArchive where
  uniqueSymbols : List String
  duplicatedSymbols : List (String × List String)
  deriving DecidableEq

/-- Model of `ThinArchive::ThinArchive` (src/thin_archive.cc lines 64-148): run
pass 1, erase the duplicated symbols from `unique_symbols_`, then run
pass 2 on the rewound file. -/
def thinArchiveOfLines (lines : List String) : Except KlpError ThinArchive :=
  let p1 := thinArchivePass1 lines
  let unique := p1.unique.filter (fun s => decide (s ∉ p1.dups))
  match thinArchivePass2 unique ⟨"", [], []⟩ lines with
  | .error e => .error e
  | .ok st => .ok ⟨unique, st.dupMap⟩

/-- The position scan inside `QuerySymbol` (src/thin_archive.cc lines
160-166): walk the file list with `pos` starting at 1, returning the
position of the first match. -/
def queryPosLoop (filename : String) : List String → Int → Option Int
  | [], _ => none
  | fn :: rest, pos =>
      if filename = fn then some pos else queryPosLoop filename rest (pos + 1)

/-- Model of `ThinArchive::QuerySymbol` (src/thin_archive.cc lines 150-172):
0 for a unique symbol, the 1-based position of `filename` in the
duplicate list, and -1 when no match is found. -/
def querySymbol (ta : ThinArchive) (symbol filename : String) : Int :=
  if symbol ∈ ta.uniqueSymbols then 0
  else
    match lookupAssoc ta.duplicatedSymbols symbol with
    | some files => (queryPosLoop filename files 1).getD (-1)
    | none => -1

/-! ## Fixup: symbol renaming (src/fixup_command.cc, RenameKlpSymbols) -/

/-- Model of `ElfSymbol::IsKLPLocalSymbol` (src/elf_symbol.cc lines 174-177):
the name starts with `klp.local.sym:`. -/
def isKLPLocalSymbol (name : String) : Bool :=
  strStartsWith name ("klp.local.sym:")

/-- The per-symbol body of the rename loop in `FixupCommand::RenameKlpSymbols`
(src/fixup_command.cc lines 233-302) for an *undefined* symbol other than
`__fentry__`.  Inputs: the optional thin archive (`ThinArchive::Create`
returns null for an empty path), the kernel module's defined-symbol set
(`mod_symbol_set`), `mod_name` (`"vmlinux."` or `<mod> ++ "."`), and the
symbol's current name.  Output: the name that is written into the rebuilt
string section for this symbol, or the error that aborts the loop.

A `klp.local.sym:<real>:<src>` name is split into real name and source
file; a plain name is used as-is with an empty source file.  For a kernel
module, a real name absent from the module's defined symbols is kept
unchanged (EXPORTed symbol).  Otherwise the symbol is marked LIVEPATCH and
renamed to `.klp.sym.<object>.<real>,<pos>`.

`pos` is declared `unsigned` in the source, so the `int` returned by
`ThinArchive::QuerySymbol` is converted modulo `2^32` before the
`pos < 0` test - which is therefore the C++ comparison of an unsigned
value against 0. -/
def fixupRenameUndefSymbol (tar : Option ThinArchive) (modSymbolSet : List String)
    (modName : String) (name : String) : Except KlpError String :=
  let realAndSrc : String × String :=
    if isKLPLocalSymbol name then
      let sp := strSplitFirst ':' name
      (strSplitFirst ':' sp.2)
    else (name, "")
  let realSymName := realAndSrc.1
  let srcFile := realAndSrc.2
  if modName ≠ "vmlinux." ∧ realSymName ∉ modSymbolSet then
    -- EXPORTed symbol: keep the real name, do not mark as livepatched.
    .ok realSymName
  else
    let posResult : Except KlpError Nat :=
      match tar with
      | none => .ok 0
      | some ta =>
          let symbol := realSymName
          let filename := strRSplitFirstPart '.' srcFile ++ (".o")
          let pos : Nat := ((querySymbol ta symbol filename) % (2 : Int) ^ 32).toNat
          if pos < 0 then .error (KlpError.cmd ErrorCode.SYM_FIND_FAILED)
          else .ok pos
    match posResult with
    | .error e => .error e
    | .ok pos => .ok ((".klp.sym.") ++ modName ++ realSymName ++ (",") ++ toString pos)

/-- Model of `Except.isOk` as a plain Bool. -/
def exceptIsOk {ε α : Type} : Except ε α → Bool
  | .ok _ => true
  | .error _ => false

/-! ## Gen: function extraction and wrapper generation (src/gen_command.cc) -/

/-- The symbol scan of `GenCommand::Run` (src/gen_command.cc lines
194-218): collect `(func name, src file)` for every symbol that starts
with `__livepatch_`, splitting the rest at the first `:`; abort with
`INVALID_KLP_PREFIX` when `__livepatch_` occurs again anywhere in
`symbol.substr(1)`; after the scan fail with `NOTHING_TO_PATCH` when
nothing was collected. -/
def genExtractLoop : List String → List (String × String) →
    Except KlpError (List (String × String))
  | [], acc => .ok acc
  | symbol :: rest, acc =>
      if symbol = "" ∨ ¬ strStartsWith symbol ("__livepatch_") then
        genExtractLoop rest acc
      else if containsSubLit ("__livepatch_") (String.mk (symbol.toList.drop 1)) then
        .error (KlpError.elf ElfErrCode.KLP_PREFIX_INVALID)
      else
        genExtractLoop rest
          (acc ++ [strSplitFirst ':' (String.mk (symbol.toList.drop 12))])

/-- Model of `GenCommand::Run`'s `klp_func_names` extraction, including the final
emptiness check (src/gen_command.cc lines 215-218). -/
def genExtract (symbols : List String) : Except KlpError (List (String × String)) :=
  match genExtractLoop symbols [] with
  | .error e => .error e
  | .ok fns =>
      if fns = [] then .error (KlpError.cmd ErrorCode.NOTHING_TO_PATCH)
      else .ok fns

/-- One `klp_func` struct literal emitted by `GenCommand::GenerateWrapper`
(src/gen_command.cc lines 281-300).  `pos` is declared `unsigned`, so the
`int` returned by `ThinArchive::QuerySymbol` is converted modulo `2^32`;
no error check follows the query. -/
def generateWrapperStructEntry (tar : Option ThinArchive)
    (funcName srcFile : String) : String :=
  let pos : Nat :=
    match tar with
    | none => 0
    | some ta =>
        ((querySymbol ta funcName (strRSplitFirstPart '.' srcFile ++ (".o")))
          % (2 : Int) ^ 32).toNat
  ("\t\x7b\n") ++
  ("\t\t.old_name = \"") ++ funcName ++ ("\",\n") ++
  ("\t\t.new_func = ") ++ ("livepatch_") ++ funcName ++ (",\n") ++
  ("\t\t.old_sympos = ") ++ toString pos ++ (",\n") ++
  ("\t\x7d,\n")

/-- Model of `GenCommand::GenerateWrapper`'s struct-list emission (src/gen_command.cc
lines 278-301): one entry per extracted function, in order, and no error
path after the template and output files have been opened (the
`FILE_OPEN_FAILED` branch for the files precedes this loop and is outside
the modelled domain). -/
def generateWrapperStructList (tar : Option ThinArchive)
    (klpFuncNames : List (String × String)) : Except KlpError (List String) :=
  .ok (klpFuncNames.map (fun p => generateWrapperStructEntry tar p.1 p.2))

/-! ## Align stage (src/align_command.cc)

Files and the patch are modelled as lists of lines.  The regexes the
source builds are modelled by matchers in which a `.` inside the
searched-for filename is a wildcard (as it is for `std::regex`). -/

/-- One regex pattern character matches one subject character (`.` is the
wildcard; the filenames fed into the patterns contain no other regex
metacharacters). -/
def patCharMatches (p c : Char) : Bool := p = '.' ∨ p = c

/-- The pattern matches a prefix of the subject. -/
def patMatchAt : List Char → List Char → Bool
  | [], _ => true
  | _ :: _, [] => false
  | p :: ps, c :: cs => patCharMatches p c && patMatchAt ps cs

/-- The pattern matches somewhere in the subject (`.*pat.*`). -/
def containsPat (pat : String) (hay : List Char) : Bool :=
  (List.range (hay.length + 1)).any (fun i => patMatchAt pat.toList (hay.drop i))

/-- Model of `std::regex_search(line, "^@@")`. -/
def isAtAtLine (line : String) : Bool := strStartsWith line ("@@")

/-- Model of `std::regex_search(line, "^diff -.*")` (the `diff_head` marker,
src/align_command.cc line 185). -/
def isDiffHeadLine (line : String) : Bool := strStartsWith line ("diff -")

/-- Model of `std::regex_search(line, "^diff -.*" + original + ".*")`
(src/align_command.cc line 186): the line starts with `diff -` and the
diffed filename occurs in the remainder. -/
def isDiffFileHeadLine (original : String) (line : String) : Bool :=
  strStartsWith line ("diff -") && containsPat original (line.toList.drop 6)

/-- Model of `SkipToMarker` (src/align_command.cc lines 111-127): consume lines
until one matches the marker (returning it with the remaining stream);
`none` models the `""` result returned on end-of-file or when the
optional stopper matches first. -/
def skipToMarker : List String → (String → Bool) → Option (String → Bool) →
    Option (String × List String)
  | [], _, _ => none
  | l :: rest, marker, stopper =>
      if marker l then some (l, rest)
      else if (match stopper with | some stop => stop l | none => false) then none
      else skipToMarker rest marker stopper

/-- Model of `GetOffsetLinesPair` (src/align_command.cc lines 142-151): parse
`[-+]${line#},${lines_changed}`, splitting at the first comma after
dropping the sign. -/
def getOffsetLinesPair (pair : String) : Nat × Nat :=
  let cs := pair.toList.drop 1
  (parseNatDigits (String.mk (cs.takeWhile (fun x => x ≠ ','))),
   parseNatDigits (String.mk ((cs.dropWhile (fun x => x ≠ ',')).drop 1)))

/-- The context-counting loop of `ParsePatchFile` (src/align_command.cc
lines 213-218): read lines until one begins with `-` or `+` (consuming
it) or the stream ends; return the number of lines read before that
together with the remaining stream. -/
def contextScan : List String → Nat × List String
  | [] => (0, [])
  | l :: rest =>
      if strStartsWith l ("-") || strStartsWith l ("+") then (0, rest)
      else
        let r := contextScan rest
        (r.1 + 1, r.2)

/-- The `@@`-hunk loop of `ParsePatchFile` (src/align_command.cc lines
193-221), with explicit fuel.  Every iteration consumes at least the
matched `@@` line, so `lines.length + 1` fuel (see `parseHunksLoop`)
always reaches the end of the stream. -/
def parseHunksLoopFuel : Nat → List String →
    List (Nat × Nat) × List (Nat × Nat) × List Nat
  | 0, _ => ([], [], [])
  | fuel + 1, lines =>
      match skipToMarker lines isAtAtLine (some isDiffHeadLine) with
      | none => ([], [], [])
      | some (line, rest) =>
          let tokens := splitTokens ' ' line
          let o1 := getOffsetLinesPair (tokens.getD 1 (""))
          let o2 := getOffsetLinesPair (tokens.getD 2 (""))
          let c := contextScan rest
          let tail := parseHunksLoopFuel fuel c.2
          (o1 :: tail.1, o2 :: tail.2.1,
           (if c.1 = 0 then 0 else c.1 - 1) :: tail.2.2)

/-- The hunk loop with its sufficient fuel. -/
def parseHunksLoop (lines : List String) :
    List (Nat × Nat) × List (Nat × Nat) × List Nat :=
  parseHunksLoopFuel (lines.length + 1) lines

/-- Model of `ConvertToRelativeOffset`'s loop (src/align_command.cc lines 155-164)
with the running `last_patch_line` made explicit; offsets are `size_t`,
so the subtraction wraps modulo `2^64`. -/
def convertToRelativeOffsetGo (last : Nat) :
    List (Nat × Nat) → List (Nat × Nat)
  | [] => []
  | (offset, lines) :: rest =>
      (usub64 offset last, lines) :: convertToRelativeOffsetGo offset rest

/-- Model of `ConvertToRelativeOffset` (src/align_command.cc lines 155-164):
`last_patch_line` starts at 0. -/
def convertToRelativeOffset (patches : List (Nat × Nat)) : List (Nat × Nat) :=
  convertToRelativeOffsetGo 0 patches

/-- Model of `ParsePatchFile` (src/align_command.cc lines 169-227): find the first
`diff -` line for the diffed file (no hunks at all when there is none),
then parse the hunk headers and convert both sides to relative offsets. -/
def parsePatchFile (patchLines : List String) (original : String) :
    List (Nat × Nat) × List (Nat × Nat) × List Nat :=
  match skipToMarker patchLines (isDiffFileHeadLine original) none with
  | none => ([], [], [])
  | some (_, rest) =>
      let h := parseHunksLoop rest
      (convertToRelativeOffset h.1, convertToRelativeOffset h.2.1, h.2.2)

/-- The per-hunk loop and final copy of `AlignCommand::AlignFile`
(src/align_command.cc lines 290-306) at the line level, on the zipped
`(from[i], to[i], context[i])` triples: copy `from` offset lines; when
this side changes fewer lines than the other, copy the context lines and
append the difference as empty lines; afterwards copy to end-of-file.
(`to[i].offset` is destructured but unused in the source.) -/
def alignHunks : List String → List ((Nat × Nat) × (Nat × Nat) × Nat) → List String
  | ins, [] => ins
  | ins, h :: rest =>
      let fOff := h.1.1
      let fLines := h.1.2
      let tLines := h.2.1.2
      let ctx := h.2.2
      ins.take fOff ++
        (if fLines < tLines then
          ((ins.drop fOff).take ctx) ++ List.replicate (tLines - fLines) ("") ++
            alignHunks (((ins.drop fOff).drop ctx)) rest
        else alignHunks (ins.drop fOff) rest)

/-- Model of `AlignCommand::AlignFile` (src/align_command.cc lines 271-306) on the
parsed patch vectors (which `ParsePatchFile` produces with equal
lengths). -/
def alignFile (ins : List String) (fromP toP : List (Nat × Nat))
    (ctx : List Nat) : List String :=
  alignHunks ins (fromP.zip (toP.zip ctx))

/-- Model of `AlignCommand::Run` (src/align_command.cc lines 260-269): parse the
patch, then align the original file against the patched offsets and the
patched file against the original offsets; the results are the contents
written to `<file><suffix>`. -/
def alignRun (aLines bLines patchLines : List String) (diffedFile : String) :
    List String × List String :=
  let p := parsePatchFile patchLines diffedFile
  (alignFile aLines p.1 p.2.1 p.2.2, alignFile bLines p.2.1 p.1 p.2.2)

/-! ## Diff stage (src/diff_command.cc)

LLVM functions and modules are modelled with the attributes the diff
stage reads or writes: name, section attribution, presence of a body,
linkage, and membership in `llvm.used`.  The structural difference
engine (third_party llvm-diff) is an external collaborator and is passed
in as a binary predicate (`consumer->hadDifferences()` after
`diff_engine.diff(LFn, RFn)`, with the consumer reset in between). -/

/-- Linkage of a global value; the diff stage only distinguishes
`ExternalLinkage` from everything else. -/
inductive Linkage where
  | external
  | internal
  deriving DecidableEq

/-- An LLVM function as seen by the diff stage. -/
structure IRFunc where
  name : String
  sectionName : Option String
  hasBody : Bool
  linkage : Linkage
  inUsedList : Bool
  deriving DecidableEq

/-- An LLVM module as seen by the diff stage's function pass. -/
structure IRModule where
  funcs : List IRFunc
  aliases : List String
  sourceFileName : String
  deriving DecidableEq

/-- Model of `FuncInSpecialSection` (src/diff_command.cc lines 111-124): the
function has a section and its name begins with `.init` or `.exit`. -/
def funcInSpecialSection (f : IRFunc) : Bool :=
  match f.sectionName with
  | none => false
  | some s => strStartsWith s (".init") || strStartsWith s (".exit")

/-- Model of `Module::getFunction` by name. -/
def findFunc (m : IRModule) (name : String) : Option IRFunc :=
  m.funcs.find? (fun g => g.name = name)

/-- One iteration of the classification loop of `DistillDiffFunctions`
(src/diff_command.cc lines 170-195) on the accumulated name sets
`(klp_func_set, new_func_set, spc_func_set)`: skip anonymous functions,
collect special-section functions, functions missing from the original,
and functions the difference engine reports as changed. -/
def classifyStep (differs : IRFunc → IRFunc → Bool) (original : IRModule)
    (acc : List String × List String × List String) (f : IRFunc) :
    List String × List String × List String :=
  if f.name = "" then acc
  else if funcInSpecialSection f then (acc.1, acc.2.1, acc.2.2 ++ [f.name])
  else
    match findFunc original f.name with
    | none => (acc.1, acc.2.1 ++ [f.name], acc.2.2)
    | some lfn =>
        if differs lfn f then (acc.1 ++ [f.name], acc.2.1, acc.2.2) else acc

/-- The classification loop of `DistillDiffFunctions` (src/diff_command.cc
lines 170-195), producing the name sets `(klp_func_set, new_func_set,
spc_func_set)` in iteration order.  (The source keys the sets by
`Function*`; function names are unique within an LLVM module, per the
comment at src/diff_command.cc lines 157-160.) -/
def classifyFunctions (differs : IRFunc → IRFunc → Bool)
    (original patched : IRModule) : List String × List String × List String :=
  patched.funcs.foldl (classifyStep differs original) ([], [], [])

/-- Model of `RemoveFuncAlias` (src/diff_command.cc lines 136-151): drop aliases
whose names start with `__direct_call` or `sys_`. -/
def removeFuncAlias (aliases : List String) : List String :=
  aliases.filter
    (fun a => ¬ (strStartsWith a ("__direct_call") || strStartsWith a ("sys_")))

/-- Model of `RemoveBasePath` (src/elf_symbol.cc lines 186-189):
`path.split(base_path).second.ltrim("./")`.  `StringRef::split` at the
first occurrence of the substring yields `""` as second component when
the base path does not occur; `ltrim` strips leading `.` and `/`. -/
def removeBasePath (path basePath : String) : String :=
  let found := (List.range (path.toList.length + 1)).find?
    (fun i => List.isPrefixOf basePath.toList (path.toList.drop i))
  let second :=
    match found with
    | none => []
    | some i => path.toList.drop (i + basePath.toList.length)
  String.mk (second.dropWhile (fun c => c = '.' ∨ c = '/'))

/-- Model of `ElfSymbol::CreateLivepatchedFunctionName` (src/elf_symbol.cc lines
192-197): `<func name>:<module source file relative to base>`. -/
def createLivepatchedFunctionName (funcName srcFileName basePath : String) :
    String :=
  funcName ++ (":") ++ removeBasePath srcFileName basePath

/-- The second loop of `DistillDiffFunctions` (src/diff_command.cc lines
212-247) for one function: new functions are untouched, livepatched
functions are renamed to `__livepatch_<name>:<src>`, added to
`llvm.used` and given external linkage, and every other named function
loses its body. -/
def distillTransformFunc (klpNames newNames : List String)
    (srcFileName basePath : String) (f : IRFunc) : IRFunc :=
  if f.name = "" then f
  else if f.name ∈ newNames then f
  else if f.name ∈ klpNames then
    { f with
      name := ("__livepatch_") ++
        createLivepatchedFunctionName f.name srcFileName basePath,
      inUsedList := true,
      linkage := Linkage.external }
  else { f with hasBody := false }

/-- Model of `DistillDiffFunctions` (src/diff_command.cc lines 153-250): classify,
fail with `NOTHING_TO_PATCH` (thrown in the source, caught in `main`)
when both the livepatched and the new set are empty, remove the
special-section functions, remove the `__direct_call`/`sys_` aliases,
then externalize / rename as per `distillTransformFunc`. -/
def distillDiffFunctions (differs : IRFunc → IRFunc → Bool)
    (original patched : IRModule) (basePath : String) :
    Except KlpError IRModule :=
  let c := classifyFunctions differs original patched
  let klpNames := c.1
  let newNames := c.2.1
  let spcNames := c.2.2
  if klpNames = [] ∧ newNames = [] then
    .error (KlpError.cmd ErrorCode.NOTHING_TO_PATCH)
  else
    let funcs1 := patched.funcs.filter (fun f => decide (f.name ∉ spcNames))
    .ok
      { funcs := funcs1.map
          (distillTransformFunc klpNames newNames patched.sourceFileName basePath),
        aliases := removeFuncAlias patched.aliases,
        sourceFileName := patched.sourceFileName }

/-! ## Fixup: KLP rela creation (src/fixup_command.cc, CreateKlpRela)

`ElfBin::Relas()` iterates the entries of every RELA section whose
target section carries `SHF_ALLOC` (src/elf_rela.cc lines 86-115); the
input below is the list of exactly those sections. -/

/-- A `GElf_Rela` relocation entry. -/
structure RelaEntry where
  rOffset : Nat
  rInfo : Nat
  rAddend : Int
  deriving DecidableEq

/-- One iterated RELA section: its header fields `sh_info` (target
section id) and `sh_link` (symbol table id), the names of the symbol
table it links to (`ElfRela::Name()` resolves `GELF_R_SYM(r_info) =
r_info >> 32` through that table), and its entries. -/
structure RelaSection where
  sectionId : Nat
  symtabId : Nat
  symNames : List String
  entries : List RelaEntry
  deriving DecidableEq

/-- Model of `ElfRela::Name()` for an entry of a section (src/elf_rela.cc lines
65-68): the symbol-table name at index `GELF_R_SYM(r_info)`. -/
def relaSymName (sec : RelaSection) (e : RelaEntry) : String :=
  sec.symNames.getD (e.rInfo / 2 ^ 32) ("")

/-- Module-name extraction from a `.klp.sym.` symbol name
(src/fixup_command.cc lines 132-136): the characters after the prefix
(length 9) up to the next `.`. -/
def klpModNameOf (symName : String) : String :=
  String.mk ((symName.toList.drop 9).takeWhile (fun x => x ≠ '.'))

/-- Model of `symtab_map[k] = v` on an association list: update or add. -/
def setAssoc : List (Nat × Nat) → Nat → Nat → List (Nat × Nat)
  | [], k, v => [(k, v)]
  | (k', v') :: rest, k, v =>
      if k' = k then (k, v) :: rest else (k', v') :: setAssoc rest k v

/-- State of the partition loop of `FixupCommand::CreateKlpRela`
(src/fixup_command.cc lines 119-147): `klp_rela_entry_map`,
`rela_entry_map` and `symtab_map`. -/
structure KlpRelaState where
  klpMap : List ((String × Nat) × List RelaEntry)
  keptMap : List (Nat × List RelaEntry)
  symtabMap : List (Nat × Nat)

/-- One entry of the partition loop (src/fixup_command.cc lines 122-147):
entries whose symbol name does not begin with `.klp.sym.` are stored
under their section id; the rest are bucketed by `(module name, section
id)`.  (The loop also sets the referenced symbol's section index to
LIVEPATCH; that mutates the symbol table, not the entry.) -/
def createKlpRelaStep (sec : RelaSection) (st : KlpRelaState) (e : RelaEntry) :
    KlpRelaState :=
  let symName := relaSymName sec e
  if ¬ strStartsWith symName (".klp.sym.") then
    { st with keptMap := pushBack st.keptMap sec.sectionId e }
  else
    { st with
      klpMap := pushBack st.klpMap (klpModNameOf symName, sec.sectionId) e,
      symtabMap := setAssoc st.symtabMap sec.sectionId sec.symtabId }

/-- The whole partition loop over all iterated sections and entries. -/
def createKlpRelaScan (sections : List RelaSection) : KlpRelaState :=
  sections.foldl
    (fun st sec => sec.entries.foldl (createKlpRelaStep sec) st)
    ⟨[], [], []⟩

/-- The rebuilt contents of the pre-existing RELA sections: for each
`(section id, kept entries)` pair, `ElfBin::UpdateRela`
(src/elf_bin.cc lines 152-185) replaces the section's data and size with
exactly the kept vector. -/
def updatedRelaSections (st : KlpRelaState) : List (Nat × List RelaEntry) :=
  st.keptMap

/-- The newly created KLP rela sections: for each bucket,
`ElfBin::CreateKlpRela` (src/elf_bin.cc lines 187-229) fills a new
section named `.klp.rela.<module>.<target section name>` with exactly
the bucket's vector. -/
def newKlpRelaSections (st : KlpRelaState) (sectionName : Nat → String) :
    List (String × List RelaEntry) :=
  st.klpMap.map (fun p => ((".klp.rela.") ++ p.1.1 ++ (".") ++ sectionName p.1.2, p.2))

/-- The multiset of relocation entries held by the iterated sections. -/
def relaMultisetOfSections (sections : List RelaSection) : Multiset RelaEntry :=
  (sections.map (fun s => (s.entries : Multiset RelaEntry))).sum

/-- The multiset of relocation entries held by an entry map. -/
def relaMultisetOfMap {κ : Type} (m : List (κ × List RelaEntry)) :
    Multiset RelaEntry :=
  (m.map (fun p => (p.2 : Multiset RelaEntry))).sum

/-! ## Concrete instances used by counterexamples and witnesses -/

/-- The `nm -f posix` dump of the C3 scenario: `helper` of type T in
`x.o` and `y.o`, weak (`W`) in `z.o`, plus a symbol `unique` appearing
once. -/
def exThinLines : List String :=
  ["liba.a[x.o]:", "helper T", "liba.a[y.o]:", "helper T", "liba.a[z.o]:",
   "helper W", "unique T"]

/-- The thin archive built from `exThinLines` (the build succeeds). -/
def exThinArchive : ThinArchive :=
  match thinArchiveOfLines exThinLines with
  | .ok t => t
  | .error _ => ⟨[], []⟩

/-- A thin archive whose dump mentions only `bar`, so that querying `foo`
returns -1. -/
def exThinArchiveNoFoo : ThinArchive :=
  match thinArchiveOfLines (["liba.a[x.o]:", "bar T"]) with
  | .ok t => t
  | .error _ => ⟨[], []⟩

/-- A patch (as lines) for `orig.c` with one hunk that replaces one line
by two (`@@ -1,1 +1,2 @@`, no context lines). -/
def exAlignPatch : List String :=
  ["diff -u orig.c new.c", "@@ -1,1 +1,2 @@", "-A", "+A1", "+A2"]

/-- A patch for `orig.c` with one hunk that changes one line into one
line (no padding needed on either side). -/
def exAlignPatchEq : List String :=
  ["diff -u orig.c new.c", "@@ -1,1 +1,1 @@", "-A", "+B"]

/-- Original file of the align scenario. -/
def exAlignA : List String := ["A", "B"]

/-- Patched file of the align scenario. -/
def exAlignB : List String := ["A1", "A2", "B"]

/-- A named function `f` without section attribution. -/
def exIRFuncF : IRFunc := ⟨"f", none, true, Linkage.internal, false⟩

/-- A named function `g` without section attribution. -/
def exIRFuncG : IRFunc := ⟨"g", none, true, Linkage.internal, false⟩

/-- An anonymous function attributed to `.init.text`, with a body. -/
def exIRFuncInitAnon : IRFunc := ⟨"", some (".init.text"), true, Linkage.internal, false⟩

/-- Original IR module holding `f` and `g`. -/
def exOrigModule : IRModule := ⟨[exIRFuncF, exIRFuncG], [], "a.c"⟩

/-- Patched IR module holding `f`, `g` and the anonymous `.init.text`
function. -/
def exPatchedModule : IRModule := ⟨[exIRFuncF, exIRFuncG, exIRFuncInitAnon], [], "a.c"⟩

/-! ## Lemmas: multiset bookkeeping for the rela partition (C2) -/

theorem relaMultisetOfMap_pushBack {κ : Type} [DecidableEq κ]
    (m : List (κ × List RelaEntry)) (k : κ) (e : RelaEntry) :
    relaMultisetOfMap (pushBack m k e) = relaMultisetOfMap m + {e} := by
  induction m with
  | nil => simp [pushBack, relaMultisetOfMap]
  | cons p rest ih =>
      obtain ⟨k', vs⟩ := p
      by_cases hk : k' = k
      · simp only [pushBack, hk, if_pos, relaMultisetOfMap, List.map_cons, List.sum_cons]
        rw [show ((vs ++ [e] : List RelaEntry) : Multiset RelaEntry) = ↑vs + {e} by
          rw [← Multiset.coe_add, Multiset.coe_singleton]]
        ac_rfl
      · simp [pushBack, hk, relaMultisetOfMap] at ih ⊢
        rw [ih]
        ac_rfl

/-- Total relocation-entry multiset held by a partition state. -/
def klpRelaStateTotal (st : KlpRelaState) : Multiset RelaEntry :=
  relaMultisetOfMap st.keptMap + relaMultisetOfMap st.klpMap

theorem createKlpRelaStep_total (sec : RelaSection) (st : KlpRelaState)
    (e : RelaEntry) :
    klpRelaStateTotal (createKlpRelaStep sec st e) = klpRelaStateTotal st + {e} := by
  unfold createKlpRelaStep klpRelaStateTotal
  by_cases h : strStartsWith (relaSymName sec e) (".klp.sym.") = true
  · simp [h, relaMultisetOfMap_pushBack]
    ac_rfl
  · simp [h, relaMultisetOfMap_pushBack]
    ac_rfl

theorem foldl_createKlpRelaStep_total (sec : RelaSection)
    (entries : List RelaEntry) :
    ∀ st : KlpRelaState,
      klpRelaStateTotal (entries.foldl (createKlpRelaStep sec) st) =
        klpRelaStateTotal st + (entries : Multiset RelaEntry) := by
  induction entries with
  | nil => intro st; simp
  | cons e es ih =>
      intro st
      simp only [List.foldl_cons]
      rw [ih, createKlpRelaStep_total]
      rw [← Multiset.cons_coe, ← Multiset.singleton_add]
      ac_rfl

theorem createKlpRelaScan_total (sections : List RelaSection) :
    klpRelaStateTotal (createKlpRelaScan sections) =
      relaMultisetOfSections sections := by
  unfold createKlpRelaScan
  have main : ∀ (secs : List RelaSection) (st : KlpRelaState),
      klpRelaStateTotal
          (secs.foldl (fun st sec => sec.entries.foldl (createKlpRelaStep sec) st) st) =
        klpRelaStateTotal st + relaMultisetOfSections secs := by
    intro secs
    induction secs with
    | nil => intro st; simp [relaMultisetOfSections]
    | cons s ss ih =>
        intro st
        simp only [List.foldl_cons]
        rw [ih, foldl_createKlpRelaStep_total]
        simp [relaMultisetOfSections]
        ac_rfl
  rw [main]
  simp [klpRelaStateTotal, relaMultisetOfMap]

theorem relaMultisetOfMap_newKlpRelaSections (st : KlpRelaState)
    (sectionName : Nat → String) :
    relaMultisetOfMap (newKlpRelaSections st sectionName) =
      relaMultisetOfMap st.klpMap := by
  unfold newKlpRelaSections relaMultisetOfMap
  induction st.klpMap with
  | nil => simp
  | cons p rest ih => simp_all

/-- C2: Fixup create-KLP-rela totality: the multiset of relocation
entries held by the iterated (SHF_ALLOC-targeted) RELA sections equals
the disjoint union of the entries kept in the rebuilt original sections
and the entries moved into the newly created `.klp.rela.<module>.<section>`
sections; no entry is lost or duplicated. -/
theorem fixup_rela_split_totality (sections : List RelaSection)
    (sectionName : Nat → String) :
    relaMultisetOfSections sections =
      relaMultisetOfMap (updatedRelaSections (createKlpRelaScan sections)) +
        relaMultisetOfMap
          (newKlpRelaSections (createKlpRelaScan sections) sectionName) := by
  rw [relaMultisetOfMap_newKlpRelaSections, ← createKlpRelaScan_total]
  rfl

/-! ## Lemmas: align stage -/

theorem skipToMarker_eq_none (lines : List String) (marker : String → Bool)
    (h : ∀ l ∈ lines, marker l = false) :
    skipToMarker lines marker none = none := by
  induction lines with
  | nil => rfl
  | cons l rest ih =>
      have hl : marker l = false := h l (by simp)
      simp only [skipToMarker, hl, Bool.false_eq_true, if_false]
      exact ih (fun x hx => h x (by simp [hx]))

theorem alignHunks_of_no_growth (hunks : List ((Nat × Nat) × (Nat × Nat) × Nat))
    (hh : ∀ h ∈ hunks, ¬ (h.1.2 < h.2.1.2)) :
    ∀ ins : List String, alignHunks ins hunks = ins := by
  induction hunks with
  | nil => intro ins; rfl
  | cons h rest ih =>
      intro ins
      have hng : ¬ (h.1.2 < h.2.1.2) := hh h (by simp)
      simp only [alignHunks, if_neg hng]
      rw [ih (fun x hx => hh x (by simp [hx]))]
      exact List.take_append_drop _ _

theorem mem_zip_zip {α β γ : Type} :
    ∀ (l₁ : List α) (l₂ : List β) (l₃ : List γ) (x : α × β × γ),
      x ∈ l₁.zip (l₂.zip l₃) → (x.1, x.2.1) ∈ l₁.zip l₂ := by
  intro l₁
  induction l₁ with
  | nil => intro l₂ l₃ x hx; simp at hx
  | cons a as ih =>
      intro l₂ l₃ x hx
      cases l₂ with
      | nil => simp at hx
      | cons b bs =>
          cases l₃ with
          | nil => simp at hx
          | cons c cs =>
              simp only [List.zip_cons_cons, List.mem_cons] at hx ⊢
              cases hx with
              | inl hx => left; rw [hx]
              | inr hx => right; exact ih bs cs x hx

theorem mem_zip_swap {α β : Type} :
    ∀ (l₁ : List α) (l₂ : List β) (x : α × β),
      x ∈ l₁.zip l₂ → (x.2, x.1) ∈ l₂.zip l₁ := by
  intro l₁
  induction l₁ with
  | nil => intro l₂ x hx; simp at hx
  | cons a as ih =>
      intro l₂ x hx
      cases l₂ with
      | nil => simp at hx
      | cons b bs =>
          simp only [List.zip_cons_cons, List.mem_cons] at hx ⊢
          cases hx with
          | inl hx => left; rw [hx]
          | inr hx => right; exact ih bs x hx

/-- C7: when no `diff -` line of the patch names the diffed filename,
`ParsePatchFile` finds no hunks and align writes both output files with
exactly the lines of their inputs. -/
theorem align_noop_without_diff_line (a b patchLines : List String) (d : String)
    (h : ∀ l ∈ patchLines, isDiffFileHeadLine d l = false) :
    alignRun a b patchLines d = (a, b) := by
  unfold alignRun
  rw [show parsePatchFile patchLines d = ([], [], []) by
    unfold parsePatchFile
    rw [skipToMarker_eq_none patchLines (isDiffFileHeadLine d) h]]
  rfl

/-- Witness for `align_noop_without_diff_line`: a patch whose only
`diff -` line is for a different file. -/
theorem align_noop_without_diff_line_witness :
    alignRun (["A", "B"]) (["B", "B"])
        (["diff -u other.c other2.c", "@@ -1,1 +1,1 @@", "-A", "+B"])
        ("orig.c") =
      ((["A", "B"]), (["B", "B"])) :=
  align_noop_without_diff_line (["A", "B"]) (["B", "B"])
    (["diff -u other.c other2.c", "@@ -1,1 +1,1 @@", "-A", "+B"])
    ("orig.c") (by decide)

theorem convertGo_spec (l : List (Nat × Nat)) :
    ∀ last : Nat, (∀ p ∈ l, p.1 < 2 ^ 64) →
      List.Chain' (fun p q : Nat × Nat => p.1 ≤ q.1) l →
      (∀ p ∈ l.head?, last ≤ p.1) →
      convertToRelativeOffsetGo last l =
        (l.zip (last :: l.map Prod.fst)).map (fun pq => (pq.1.1 - pq.2, pq.1.2)) := by
  induction l with
  | nil => intro last _ _ _; rfl
  | cons p rest ih =>
      obtain ⟨o, n⟩ := p
      intro last hbound hchain hhead
      have hlast : last ≤ o := by simpa using hhead (o, n) (by simp)
      have ho : o < 2 ^ 64 := by simpa using hbound (o, n) (by simp)
      have hsub : usub64 o last = o - last := by
        unfold usub64
        have h64 : (2 : Nat) ^ 64 = 18446744073709551616 := by norm_num
        rw [h64] at ho ⊢
        omega
      simp only [convertToRelativeOffsetGo, List.map_cons, List.zip_cons_cons,
        List.map, hsub]
      congr 1
      apply ih o
      · intro q hq; exact hbound q (by simp [hq])
      · exact hchain.tail
      · intro q hq
        cases rest with
        | nil => simp at hq
        | cons r rs =>
            have hqr : r = q := by simpa using hq
            rw [← hqr]
            exact (List.chain'_cons.mp hchain).1

/-- C9 (amended): after hunk parsing, each stored per-hunk offset is the
hunk's absolute offset minus the *absolute offset of the previous hunk*
on the same side (not minus the previous hunk's end), and the first
hunk's stored offset equals its absolute offset (previous offset 0). -/
theorem align_relative_offsets (l : List (Nat × Nat))
    (hbound : ∀ p ∈ l, p.1 < 2 ^ 64)
    (hmono : List.Chain' (fun p q : Nat × Nat => p.1 ≤ q.1) l) :
    convertToRelativeOffset l =
      (l.zip ((0 : Nat) :: l.map Prod.fst)).map
        (fun pq => (pq.1.1 - pq.2, pq.1.2)) := by
  unfold convertToRelativeOffset
  exact convertGo_spec l 0 hbound hmono (fun p _ => Nat.zero_le _)

/-- Witness for `align_relative_offsets` at the absolute offset list
`[(10,2),(20,3)]`. -/
theorem align_relative_offsets_witness :
    convertToRelativeOffset [((10 : Nat), (2 : Nat)), (20, 3)] =
      ([((10 : Nat), (2 : Nat)), (20, 3)].zip
          ((0 : Nat) :: [((10 : Nat), (2 : Nat)), (20, 3)].map Prod.fst)).map
        (fun pq => (pq.1.1 - pq.2, pq.1.2)) :=
  align_relative_offsets [((10 : Nat), (2 : Nat)), (20, 3)] (by decide)
    (List.chain'_cons.mpr ⟨by norm_num, List.chain'_singleton _⟩)

/-- C9 counterexample: for absolute hunks `[(10,2),(20,3)]` the stored
second offset is `10 = 20 - 10` (relative to the previous hunk's
*offset*), not `8 = 20 - (10 + 2)` (relative to the previous hunk's
*end*). -/
theorem convert_relative_to_end_counterexample :
    convertToRelativeOffset [((10 : Nat), (2 : Nat)), (20, 3)] = [(10, 2), (10, 3)] ∧
      ((convertToRelativeOffset [((10 : Nat), (2 : Nat)), (20, 3)]).getD 1 (0, 0)).1 ≠
        20 - (10 + 2) := by
  constructor
  · decide
  · decide

/-- C4 (amended): align is a fixed point only when no hunk pads: when
every parsed hunk changes the same number of lines on both sides, align
writes both inputs unchanged, hence running align again on the outputs
yields the same outputs. -/
theorem align_idempotent_without_padding (a b patchLines : List String) (d : String)
    (h : ∀ pq ∈ ((parsePatchFile patchLines d).1.zip
        (parsePatchFile patchLines d).2.1), pq.1.2 = pq.2.2) :
    alignRun a b patchLines d = (a, b) ∧
      alignRun (alignRun a b patchLines d).1 (alignRun a b patchLines d).2
          patchLines d =
        alignRun a b patchLines d := by
  have hmain : alignRun a b patchLines d = (a, b) := by
    have h1 : alignHunks a ((parsePatchFile patchLines d).1.zip
        ((parsePatchFile patchLines d).2.1.zip (parsePatchFile patchLines d).2.2)) = a := by
      apply alignHunks_of_no_growth
      intro x hx
      have hx2 : x.1.2 = x.2.1.2 := h (x.1, x.2.1) (mem_zip_zip _ _ _ x hx)
      omega
    have h2 : alignHunks b ((parsePatchFile patchLines d).2.1.zip
        ((parsePatchFile patchLines d).1.zip (parsePatchFile patchLines d).2.2)) = b := by
      apply alignHunks_of_no_growth
      intro x hx
      have hmem := mem_zip_swap _ _ _ (mem_zip_zip _ _ _ x hx)
      have hx2 : x.2.1.2 = x.1.2 := h (x.2.1, x.1) hmem
      omega
    show (alignHunks a ((parsePatchFile patchLines d).1.zip
        ((parsePatchFile patchLines d).2.1.zip (parsePatchFile patchLines d).2.2)),
      alignHunks b ((parsePatchFile patchLines d).2.1.zip
        ((parsePatchFile patchLines d).1.zip (parsePatchFile patchLines d).2.2))) = (a, b)
    rw [h1, h2]
  exact ⟨hmain, by rw [hmain]; exact hmain⟩

/-- Witness for `align_idempotent_without_padding`: a one-hunk patch
changing one line into one line. -/
theorem align_idempotent_without_padding_witness :
    alignRun (["A", "X"]) (["B", "X"]) exAlignPatchEq ("orig.c") =
      ((["A", "X"]), (["B", "X"])) :=
  (align_idempotent_without_padding (["A", "X"]) (["B", "X"]) exAlignPatchEq
    ("orig.c") (by decide)).1

/-- C4 counterexample: for the growing hunk `@@ -1,1 +1,2 @@` the first
align run pads the original with one blank line, and running align again
on the two outputs pads it again, so the second run's outputs differ
from the first run's. -/
theorem align_not_idempotent_counterexample :
    alignRun (alignRun exAlignA exAlignB exAlignPatch ("orig.c")).1
        (alignRun exAlignA exAlignB exAlignPatch ("orig.c")).2
        exAlignPatch ("orig.c") ≠
      alignRun exAlignA exAlignB exAlignPatch ("orig.c") := by
  decide

/-! ## Lemmas: gen function extraction (C8) -/

theorem genExtractLoop_of_bad (syms : List String) :
    ∀ acc : List (String × String),
      (∃ s ∈ syms, strStartsWith s ("__livepatch_") = true ∧
        containsSubLit ("__livepatch_") (String.mk (s.toList.drop 1)) = true) →
      genExtractLoop syms acc = .error (KlpError.elf ElfErrCode.KLP_PREFIX_INVALID) := by
  induction syms with
  | nil => intro acc h; simp at h
  | cons s rest ih =>
      intro acc h
      obtain ⟨w, hw, hwpref, hwcont⟩ := h
      by_cases hskip : s = "" ∨ ¬ strStartsWith s ("__livepatch_")
      · have hwr : w ∈ rest := by
          rcases List.mem_cons.mp hw with hws | hws
          · exfalso
            rcases hskip with h1 | h1
            · rw [hws, h1] at hwpref
              exact absurd hwpref (by decide)
            · rw [hws] at hwpref
              exact h1 hwpref
          · exact hws
        simp only [genExtractLoop, if_pos hskip]
        exact ih acc ⟨w, hwr, hwpref, hwcont⟩
      · by_cases hcont :
            containsSubLit ("__livepatch_") (String.mk (s.toList.drop 1)) = true
        · simp only [genExtractLoop, if_neg hskip, if_pos hcont]
        · have hwr : w ∈ rest := by
            rcases List.mem_cons.mp hw with hws | hws
            · exact absurd (hws ▸ hwcont) hcont
            · exact hws
          simp only [genExtractLoop, if_neg hskip, if_neg hcont]
          exact ih _ ⟨w, hwr, hwpref, hwcont⟩

theorem genExtractLoop_of_no_klp (syms : List String) :
    ∀ acc : List (String × String),
      (∀ s ∈ syms, strStartsWith s ("__livepatch_") = false) →
      genExtractLoop syms acc = .ok acc := by
  induction syms with
  | nil => intro acc _; rfl
  | cons s rest ih =>
      intro acc h
      have hs : strStartsWith s ("__livepatch_") = false := h s (by simp)
      have hskip : s = "" ∨ ¬ strStartsWith s ("__livepatch_") :=
        Or.inr (by simp [hs])
      simp only [genExtractLoop, if_pos hskip]
      exact ih acc (fun x hx => h x (by simp [hx]))

theorem genExtractLoop_ok_shape (syms : List String) :
    ∀ (acc l : List (String × String)),
      genExtractLoop syms acc = .ok l →
      l = acc ++ (syms.filter (fun s => strStartsWith s ("__livepatch_"))).map
          (fun s => strSplitFirst ':' (String.mk (s.toList.drop 12))) := by
  induction syms with
  | nil =>
      intro acc l h
      simp only [genExtractLoop] at h
      cases h
      simp
  | cons s rest ih =>
      intro acc l h
      by_cases hskip : s = "" ∨ ¬ strStartsWith s ("__livepatch_")
      · simp only [genExtractLoop, if_pos hskip] at h
        have hsfalse : strStartsWith s ("__livepatch_") = false := by
          rcases hskip with h1 | h1
          · rw [h1]; decide
          · simp [h1]
        rw [ih acc l h]
        simp [List.filter_cons, hsfalse]
      · by_cases hcont :
            containsSubLit ("__livepatch_") (String.mk (s.toList.drop 1)) = true
        · simp only [genExtractLoop, if_neg hskip, if_pos hcont] at h
          cases h
        · simp only [genExtractLoop, if_neg hskip, if_neg hcont] at h
          have hstrue : strStartsWith s ("__livepatch_") = true := by
            rcases not_or.mp hskip with ⟨_, h2⟩
            simpa using h2
          rw [ih _ l h]
          simp [List.filter_cons, hstrue]

/-- C8: gen's function extraction: a symbol carrying the `__livepatch_`
prefix again at or after index 1 makes gen fail with
`INVALID_KLP_PREFIX`; when no symbol carries the prefix gen fails with
`NOTHING_TO_PATCH`; and on success the collected list is exactly the
prefixed symbols split at the first colon after dropping the prefix
(length 12). -/
theorem gen_extract_spec :
    (∀ symbols : List String,
        (∃ s ∈ symbols, strStartsWith s ("__livepatch_") = true ∧
          containsSubLit ("__livepatch_") (String.mk (s.toList.drop 1)) = true) →
        genExtract symbols = .error (KlpError.elf ElfErrCode.KLP_PREFIX_INVALID)) ∧
    (∀ symbols : List String,
        (∀ s ∈ symbols, strStartsWith s ("__livepatch_") = false) →
        genExtract symbols = .error (KlpError.cmd ErrorCode.NOTHING_TO_PATCH)) ∧
    (∀ (symbols : List String) (l : List (String × String)),
        genExtract symbols = .ok l →
        l = (symbols.filter (fun s => strStartsWith s ("__livepatch_"))).map
            (fun s => strSplitFirst ':' (String.mk (s.toList.drop 12)))) := by
  refine ⟨?_, ?_, ?_⟩
  · intro symbols h
    unfold genExtract
    rw [genExtractLoop_of_bad symbols [] h]
  · intro symbols h
    unfold genExtract
    rw [genExtractLoop_of_no_klp symbols [] h]
    exact rfl
  · intro symbols l h
    unfold genExtract at h
    cases hloop : genExtractLoop symbols [] with
    | error e => rw [hloop] at h; cases h
    | ok fns =>
        rw [hloop] at h
        have h2 : (if fns = [] then
            (.error (KlpError.cmd ErrorCode.NOTHING_TO_PATCH) :
              Except KlpError (List (String × String)))
          else .ok fns) = .ok l := h
        by_cases hfns : fns = []
        · rw [if_pos hfns] at h2; cases h2
        · rw [if_neg hfns] at h2
          cases h2
          simpa using genExtractLoop_ok_shape symbols [] l hloop

/-- Witness for `gen_extract_spec`: a doubled prefix gives
`INVALID_KLP_PREFIX`, a prefix-free symbol table gives
`NOTHING_TO_PATCH`, and `__livepatch_f:a.c` is split into
`("f", "a.c")`. -/
theorem gen_extract_spec_witness :
    genExtract (["__livepatch___livepatch_x"]) =
      .error (KlpError.elf ElfErrCode.KLP_PREFIX_INVALID) ∧
    genExtract (["plain"]) = .error (KlpError.cmd ErrorCode.NOTHING_TO_PATCH) ∧
    ([(("f"), ("a.c"))] : List (String × String)) =
      (["__livepatch_f:a.c"].filter
          (fun s => strStartsWith s ("__livepatch_"))).map
        (fun s => strSplitFirst ':' (String.mk (s.toList.drop 12))) :=
  ⟨gen_extract_spec.1 (["__livepatch___livepatch_x"])
      ⟨("__livepatch___livepatch_x"), by decide, by decide, by decide⟩,
   gen_extract_spec.2.1 (["plain"]) (by decide),
   gen_extract_spec.2.2 (["__livepatch_f:a.c"]) ([(("f"), ("a.c"))]) rfl⟩

/-- C6: when classification leaves both the livepatched and the new set
empty - as when original and patched IR differ only in `__LINE__`
constants, so the difference engine reports no differences - the diff
stage fails with `NOTHING_TO_PATCH` and the process exit code is 7. -/
theorem diff_nothing_to_patch_exit7 (differs : IRFunc → IRFunc → Bool)
    (original patched : IRModule) (basePath : String)
    (hklp : (classifyFunctions differs original patched).1 = [])
    (hnew : (classifyFunctions differs original patched).2.1 = []) :
    distillDiffFunctions differs original patched basePath =
      .error (KlpError.cmd ErrorCode.NOTHING_TO_PATCH) ∧
    mainExitCode (distillDiffFunctions differs original patched basePath) = 7 := by
  have hmain : distillDiffFunctions differs original patched basePath =
      .error (KlpError.cmd ErrorCode.NOTHING_TO_PATCH) := by
    unfold distillDiffFunctions
    rw [if_pos ⟨hklp, hnew⟩]
  exact ⟨hmain, by rw [hmain]; rfl⟩

/-- Witness for `diff_nothing_to_patch_exit7`: identical modules with a
difference engine reporting no differences. -/
theorem diff_nothing_to_patch_exit7_witness :
    distillDiffFunctions (fun _ _ => false) exOrigModule exOrigModule ("") =
      .error (KlpError.cmd ErrorCode.NOTHING_TO_PATCH) ∧
    mainExitCode (distillDiffFunctions (fun _ _ => false) exOrigModule
        exOrigModule ("")) = 7 :=
  diff_nothing_to_patch_exit7 (fun _ _ => false) exOrigModule exOrigModule ("")
    (by decide) (by decide)

/-! ## Thin-archive and fixup-rename theorems (C3, C1, C10) -/

/-- C3 counterexample: on the scenario archive (`helper` T in `x.o`, T in
`y.o`, W in `z.o`), `QuerySymbol("helper","z.o")` returns 3, not the
claimed -1: the weak line is skipped only for duplicate *detection*; the
second constructor pass still records `z.o` as position 3. -/
theorem thin_archive_weak_counterexample :
    querySymbol exThinArchive ("helper") ("z.o") = 3 ∧
      querySymbol exThinArchive ("helper") ("z.o") ≠ -1 :=
  ⟨by decide, by decide⟩

/-- C1 (the code, at the claim's trigger): `pos` is `unsigned`, so the
`pos < 0` check after `QuerySymbol` can never fire: the rename loop never
returns `SYM_FIND_FAILED`; at a concrete undefined symbol `foo` that the
thin archive cannot resolve (`QuerySymbol = -1`) the wrapped value
`2^32 - 1 = 4294967295` is embedded as the position of the new
`.klp.sym.` name and the loop succeeds. -/
theorem fixup_rename_embeds_wrapped_pos :
    (∀ (tar : Option ThinArchive) (modSymbolSet : List String)
        (modName name : String),
        exceptIsOk (fixupRenameUndefSymbol tar modSymbolSet modName name) = true) ∧
    querySymbol exThinArchiveNoFoo ("foo") (".o") = -1 ∧
    fixupRenameUndefSymbol (some exThinArchiveNoFoo) [] ("vmlinux.") ("foo") =
      .ok (".klp.sym.vmlinux.foo,4294967295") := by
  refine ⟨?_, by decide, rfl⟩
  intro tar modSymbolSet modName name
  have hdead : ∀ (p : Nat) (a b : Except KlpError Nat),
      (if p < 0 then a else b) = b :=
    fun p a b => if_neg (Nat.not_lt_zero p)
  cases tar
  all_goals
    simp only [fixupRenameUndefSymbol, hdead]
    split <;> split <;> rfl

/-- C10: in gen's wrapper generation, a failed thin-archive lookup
(`QuerySymbol = -1`) is converted to `unsigned`, so the emitted
`klp_func` struct literal carries `old_sympos = 4294967295`, and the
struct-list emission completes without an error for that function. -/
theorem gen_wrapper_sympos_wrap (ta : ThinArchive) (fn src : String)
    (h : querySymbol ta fn (strRSplitFirstPart '.' src ++ (".o")) = -1) :
    generateWrapperStructEntry (some ta) fn src =
      ("\t\x7b\n") ++ ("\t\t.old_name = \"") ++ fn ++ ("\",\n") ++
        ("\t\t.new_func = ") ++ ("livepatch_") ++ fn ++ (",\n") ++
        ("\t\t.old_sympos = ") ++ ("4294967295") ++ (",\n") ++ ("\t\x7d,\n") ∧
    generateWrapperStructList (some ta) [(fn, src)] =
      .ok ([generateWrapperStructEntry (some ta) fn src]) := by
  constructor
  · simp only [generateWrapperStructEntry]
    rw [h]
    rfl
  · rfl

/-- Witness for `gen_wrapper_sympos_wrap` at the archive without `foo`. -/
theorem gen_wrapper_sympos_wrap_witness :
    querySymbol exThinArchiveNoFoo ("foo")
        (strRSplitFirstPart '.' ("a.c") ++ (".o")) = -1 ∧
    generateWrapperStructEntry (some exThinArchiveNoFoo) ("foo") ("a.c") =
      ("\t\x7b\n") ++ ("\t\t.old_name = \"") ++ ("foo") ++ ("\",\n") ++
        ("\t\t.new_func = ") ++ ("livepatch_") ++ ("foo") ++ (",\n") ++
        ("\t\t.old_sympos = ") ++ ("4294967295") ++ (",\n") ++ ("\t\x7d,\n") :=
  ⟨by decide,
   (gen_wrapper_sympos_wrap exThinArchiveNoFoo ("foo") ("a.c") (by decide)).1⟩

/-! ## Lemmas: diff classification and externalization (C5) -/

theorem strStartsWith_append (p s : String) : strStartsWith (p ++ s) p = true := by
  simp [strStartsWith]

theorem distillTransformFunc_sectionName (klpNames newNames : List String)
    (srcFileName basePath : String) (f : IRFunc) :
    (distillTransformFunc klpNames newNames srcFileName basePath f).sectionName =
      f.sectionName := by
  unfold distillTransformFunc
  split <;> (try split) <;> (try split) <;> rfl

theorem classify_foldl_klp (differs : IRFunc → IRFunc → Bool) (original : IRModule) :
    ∀ (funcs : List IRFunc) (acc : List String × List String × List String),
      (∀ m ∈ acc.1, (findFunc original m).isSome = true) →
      ∀ n ∈ (funcs.foldl (classifyStep differs original) acc).1,
        (findFunc original n).isSome = true := by
  intro funcs
  induction funcs with
  | nil => intro acc hacc n hn; exact hacc n hn
  | cons f fs ih =>
      intro acc hacc n hn
      simp only [List.foldl_cons] at hn
      refine ih (classifyStep differs original acc f) ?_ n hn
      intro m hm
      unfold classifyStep at hm
      by_cases h1 : f.name = ""
      · rw [if_pos h1] at hm; exact hacc m hm
      · rw [if_neg h1] at hm
        by_cases h2 : funcInSpecialSection f = true
        · rw [if_pos h2] at hm; exact hacc m hm
        · rw [if_neg h2] at hm
          cases hfind : findFunc original f.name with
          | none => rw [hfind] at hm; exact hacc m hm
          | some lfn =>
              rw [hfind] at hm
              have hm2 : m ∈ (if differs lfn f = true then
                  (acc.1 ++ [f.name], acc.2.1, acc.2.2) else acc).1 := hm
              by_cases h3 : differs lfn f = true
              · rw [if_pos h3] at hm2
                rcases List.mem_append.mp hm2 with hm3 | hm3
                · exact hacc m hm3
                · have hmn : m = f.name := by simpa using hm3
                  rw [hmn, hfind]; rfl
              · rw [if_neg h3] at hm2; exact hacc m hm2

theorem classify_foldl_new (differs : IRFunc → IRFunc → Bool) (original : IRModule) :
    ∀ (funcs : List IRFunc) (acc : List String × List String × List String),
      (∀ m ∈ acc.2.1, findFunc original m = none) →
      ∀ n ∈ (funcs.foldl (classifyStep differs original) acc).2.1,
        findFunc original n = none := by
  intro funcs
  induction funcs with
  | nil => intro acc hacc n hn; exact hacc n hn
  | cons f fs ih =>
      intro acc hacc n hn
      simp only [List.foldl_cons] at hn
      refine ih (classifyStep differs original acc f) ?_ n hn
      intro m hm
      unfold classifyStep at hm
      by_cases h1 : f.name = ""
      · rw [if_pos h1] at hm; exact hacc m hm
      · rw [if_neg h1] at hm
        by_cases h2 : funcInSpecialSection f = true
        · rw [if_pos h2] at hm; exact hacc m hm
        · rw [if_neg h2] at hm
          cases hfind : findFunc original f.name with
          | none =>
              rw [hfind] at hm
              rcases List.mem_append.mp hm with hm | hm
              · exact hacc m hm
              · have hmn : m = f.name := by simpa using hm
                rw [hmn, hfind]
          | some lfn =>
              rw [hfind] at hm
              have hm2 : m ∈ (if differs lfn f = true then
                  (acc.1 ++ [f.name], acc.2.1, acc.2.2) else acc).2.1 := hm
              by_cases h3 : differs lfn f = true
              · rw [if_pos h3] at hm2; exact hacc m hm2
              · rw [if_neg h3] at hm2; exact hacc m hm2

theorem classify_foldl_spc_mono (differs : IRFunc → IRFunc → Bool)
    (original : IRModule) :
    ∀ (funcs : List IRFunc) (acc : List String × List String × List String)
      (n : String), n ∈ acc.2.2 →
      n ∈ (funcs.foldl (classifyStep differs original) acc).2.2 := by
  intro funcs
  induction funcs with
  | nil => intro acc n hn; exact hn
  | cons f fs ih =>
      intro acc n hn
      simp only [List.foldl_cons]
      refine ih (classifyStep differs original acc f) n ?_
      unfold classifyStep
      by_cases h1 : f.name = ""
      · rw [if_pos h1]; exact hn
      · rw [if_neg h1]
        by_cases h2 : funcInSpecialSection f = true
        · rw [if_pos h2]; exact List.mem_append_left _ hn
        · rw [if_neg h2]
          cases hfind : findFunc original f.name with
          | none => exact hn
          | some lfn =>
              show n ∈ (if differs lfn f = true then
                  (acc.1 ++ [f.name], acc.2.1, acc.2.2) else acc).2.2
              by_cases h3 : differs lfn f = true
              · rw [if_pos h3]; exact hn
              · rw [if_neg h3]; exact hn

theorem classify_foldl_spc_complete (differs : IRFunc → IRFunc → Bool)
    (original : IRModule) :
    ∀ (funcs : List IRFunc) (acc : List String × List String × List String)
      (f : IRFunc), f ∈ funcs → f.name ≠ "" → funcInSpecialSection f = true →
      f.name ∈ (funcs.foldl (classifyStep differs original) acc).2.2 := by
  intro funcs
  induction funcs with
  | nil => intro acc f hf; simp at hf
  | cons g gs ih =>
      intro acc f hf hname hspec
      simp only [List.foldl_cons]
      rcases List.mem_cons.mp hf with hfg | hfg
      · refine classify_foldl_spc_mono differs original gs _ f.name ?_
        unfold classifyStep
        rw [← hfg, if_neg hname, if_pos hspec]
        exact List.mem_append_right _ (by simp)
      · exact ih _ f hfg hname hspec

/-- C5 (amended): when `DistillDiffFunctions` succeeds, the emitted
module consists exactly of the transforms of the non-special-section
functions; every function in it with a *non-empty name* carries no
`.init*`/`.exit*` section attribution (anonymous functions in such
sections are retained, since the classification loop skips anonymous
functions before the section check); every function whose name is in the
livepatched set is renamed with the `__livepatch_` prefix and given
external linkage; and every named function neither in the livepatched
set nor in the new set has its body deleted. -/
theorem diff_externalization (differs : IRFunc → IRFunc → Bool)
    (original patched : IRModule) (basePath : String) (M : IRModule)
    (h : distillDiffFunctions differs original patched basePath = .ok M) :
    M.funcs = (patched.funcs.filter (fun f =>
        decide (f.name ∉ (classifyFunctions differs original patched).2.2))).map
        (distillTransformFunc (classifyFunctions differs original patched).1
          (classifyFunctions differs original patched).2.1
          patched.sourceFileName basePath) ∧
    (∀ g ∈ M.funcs, g.name ≠ "" → funcInSpecialSection g = false) ∧
    (∀ f : IRFunc, f.name ≠ "" →
        f.name ∈ (classifyFunctions differs original patched).1 →
        strStartsWith
            (distillTransformFunc (classifyFunctions differs original patched).1
              (classifyFunctions differs original patched).2.1
              patched.sourceFileName basePath f).name ("__livepatch_") = true ∧
          (distillTransformFunc (classifyFunctions differs original patched).1
            (classifyFunctions differs original patched).2.1
            patched.sourceFileName basePath f).linkage = Linkage.external) ∧
    (∀ f : IRFunc, f.name ≠ "" →
        f.name ∉ (classifyFunctions differs original patched).1 →
        f.name ∉ (classifyFunctions differs original patched).2.1 →
        (distillTransformFunc (classifyFunctions differs original patched).1
          (classifyFunctions differs original patched).2.1
          patched.sourceFileName basePath f).hasBody = false) := by
  unfold distillDiffFunctions at h
  by_cases hc : (classifyFunctions differs original patched).1 = [] ∧
      (classifyFunctions differs original patched).2.1 = []
  · rw [if_pos hc] at h; cases h
  · rw [if_neg hc] at h
    cases h
    refine ⟨rfl, ?_, ?_, ?_⟩
    · intro g hg hname
      obtain ⟨f, hf, hgf⟩ := List.mem_map.mp hg
      obtain ⟨hfmem, hfspc⟩ := List.mem_filter.mp hf
      have hfspc' : f.name ∉ (classifyFunctions differs original patched).2.2 :=
        of_decide_eq_true hfspc
      have hfname : f.name ≠ "" := by
        intro hfn
        apply hname
        rw [← hgf]
        unfold distillTransformFunc
        rw [if_pos hfn, hfn]
      have hsec : g.sectionName = f.sectionName := by
        rw [← hgf]; exact distillTransformFunc_sectionName _ _ _ _ f
      cases hsp : funcInSpecialSection f with
      | false =>
          unfold funcInSpecialSection at hsp ⊢
          rw [hsec]; exact hsp
      | true =>
          exfalso
          apply hfspc'
          unfold classifyFunctions
          exact classify_foldl_spc_complete differs original patched.funcs
            ([], [], []) f hfmem hfname hsp
    · intro f hname hklp
      have hsome : (findFunc original f.name).isSome = true := by
        unfold classifyFunctions at hklp
        exact classify_foldl_klp differs original patched.funcs ([], [], [])
          (by intro m hm; simp at hm) f.name hklp
      have hnotnew : f.name ∉ (classifyFunctions differs original patched).2.1 := by
        intro hnew
        unfold classifyFunctions at hnew
        have hnone : findFunc original f.name = none :=
          classify_foldl_new differs original patched.funcs ([], [], [])
            (by intro m hm; simp at hm) f.name hnew
        rw [hnone] at hsome
        cases hsome
      constructor
      · unfold distillTransformFunc
        rw [if_neg hname, if_neg hnotnew, if_pos hklp]
        exact strStartsWith_append ("__livepatch_") _
      · unfold distillTransformFunc
        rw [if_neg hname, if_neg hnotnew, if_pos hklp]
    · intro f hname hnk hnn
      unfold distillTransformFunc
      rw [if_neg hname, if_neg hnn, if_neg hnk]

/-- Witness for `diff_externalization`: with a difference engine that
reports every function changed, `f` is renamed with the `__livepatch_`
prefix and given external linkage. -/
theorem diff_externalization_witness :
    strStartsWith
        (distillTransformFunc
          (classifyFunctions (fun _ _ => true) exOrigModule exPatchedModule).1
          (classifyFunctions (fun _ _ => true) exOrigModule exPatchedModule).2.1
          exPatchedModule.sourceFileName ("") exIRFuncF).name ("__livepatch_") = true ∧
      (distillTransformFunc
        (classifyFunctions (fun _ _ => true) exOrigModule exPatchedModule).1
        (classifyFunctions (fun _ _ => true) exOrigModule exPatchedModule).2.1
        exPatchedModule.sourceFileName ("") exIRFuncF).linkage = Linkage.external :=
  (diff_externalization (fun _ _ => true) exOrigModule exPatchedModule ("") _
      rfl).2.2.1 exIRFuncF (by decide) (by decide)

/-- C5 counterexample: the claim's clause "every function attributed to a
`.init*`/`.exit*` section is absent from the module" fails for anonymous
functions: the emitted module still holds the anonymous `.init.text`
function of `exPatchedModule`. -/
theorem diff_special_section_retained_counterexample :
    ∃ M, distillDiffFunctions (fun _ _ => true) exOrigModule exPatchedModule ("") =
        .ok M ∧ ∃ g ∈ M.funcs, funcInSpecialSection g = true := by
  refine ⟨_, rfl, ?_⟩
  decide

/-! ## Lemmas: unique symbols in the thin archive (C3) -/

theorem insertSet_mem (a b : String) (s : List String) :
    a ∈ insertSet b s ↔ a = b ∨ a ∈ s := by
  unfold insertSet
  by_cases hb : b ∈ s
  · rw [if_pos hb]
    constructor
    · exact Or.inr
    · rintro (rfl | h)
      · exact hb
      · exact h
  · rw [if_neg hb]
    simp [or_comm]

theorem pass1_inv (name : String) :
    ∀ (lines : List String) (st : ThinPass1State) (c : Nat),
      (name ∈ st.unique ↔ 1 ≤ c) →
      (name ∈ st.dups → 2 ≤ c) →
      ((name ∈ (lines.foldl thinArchivePass1Step st).unique ↔
          1 ≤ c + (lines.map (fun x => (parseSymbolLine x).1)).count name) ∧
       (name ∈ (lines.foldl thinArchivePass1Step st).dups →
          2 ≤ c + (lines.map (fun x => (parseSymbolLine x).1)).count name)) := by
  intro lines
  induction lines with
  | nil =>
      intro st c h1 h2
      simpa using ⟨h1, h2⟩
  | cons l rest ih =>
      intro st c h1 h2
      simp only [List.foldl_cons]
      by_cases hpn : (parseSymbolLine l).1 = name
      · have hcount : ((l :: rest).map (fun x => (parseSymbolLine x).1)).count name =
            (rest.map (fun x => (parseSymbolLine x).1)).count name + 1 := by
          simp [List.count_cons, hpn]
        have hstep1 : name ∈ (thinArchivePass1Step st l).unique ↔ 1 ≤ c + 1 := by
          unfold thinArchivePass1Step
          by_cases hmem : (parseSymbolLine l).1 ∈ st.unique
          · rw [if_neg (not_not_intro hmem)]
            by_cases hw : (parseSymbolLine l).2 = 'W'
            · rw [if_pos hw]
              exact ⟨fun _ => by omega, fun _ => hpn ▸ hmem⟩
            · rw [if_neg hw]
              show name ∈ st.unique ↔ 1 ≤ c + 1
              exact ⟨fun _ => by omega, fun _ => hpn ▸ hmem⟩
          · rw [if_pos hmem]
            show name ∈ insertSet (parseSymbolLine l).1 st.unique ↔ 1 ≤ c + 1
            rw [insertSet_mem]
            exact ⟨fun _ => by omega, fun _ => Or.inl hpn.symm⟩
        have hstep2 : name ∈ (thinArchivePass1Step st l).dups → 2 ≤ c + 1 := by
          unfold thinArchivePass1Step
          by_cases hmem : (parseSymbolLine l).1 ∈ st.unique
          · rw [if_neg (not_not_intro hmem)]
            by_cases hw : (parseSymbolLine l).2 = 'W'
            · rw [if_pos hw]
              intro hd
              have := h2 hd
              omega
            · rw [if_neg hw]
              show name ∈ (if (parseSymbolLine l).1 ∈ st.nonWeak then
                  insertSet (parseSymbolLine l).1 st.dups else st.dups) → 2 ≤ c + 1
              by_cases hnw : (parseSymbolLine l).1 ∈ st.nonWeak
              · rw [if_pos hnw]
                intro hd
                rcases (insertSet_mem name _ _).mp hd with h | h
                · have hc1 : 1 ≤ c := h1.mp (hpn ▸ hmem)
                  omega
                · have := h2 h
                  omega
              · rw [if_neg hnw]
                intro hd
                have := h2 hd
                omega
          · rw [if_pos hmem]
            show name ∈ st.dups → 2 ≤ c + 1
            intro hd
            have := h2 hd
            omega
        have hmain := ih (thinArchivePass1Step st l) (c + 1) hstep1 hstep2
        rw [hcount]
        constructor
        · rw [show c + ((rest.map (fun x => (parseSymbolLine x).1)).count name + 1) =
              (c + 1) + (rest.map (fun x => (parseSymbolLine x).1)).count name from by omega]
          exact hmain.1
        · intro hd
          have := hmain.2 hd
          omega
      · have hcount : ((l :: rest).map (fun x => (parseSymbolLine x).1)).count name =
            (rest.map (fun x => (parseSymbolLine x).1)).count name := by
          simp [List.count_cons, hpn]
        have hstep1 : name ∈ (thinArchivePass1Step st l).unique ↔ 1 ≤ c := by
          unfold thinArchivePass1Step
          by_cases hmem : (parseSymbolLine l).1 ∈ st.unique
          · rw [if_neg (not_not_intro hmem)]
            by_cases hw : (parseSymbolLine l).2 = 'W'
            · rw [if_pos hw]; exact h1
            · rw [if_neg hw]; exact h1
          · rw [if_pos hmem]
            show name ∈ insertSet (parseSymbolLine l).1 st.unique ↔ 1 ≤ c
            rw [insertSet_mem]
            constructor
            · rintro (h | h)
              · exact absurd h.symm hpn
              · exact h1.mp h
            · intro h
              exact Or.inr (h1.mpr h)
        have hstep2 : name ∈ (thinArchivePass1Step st l).dups → 2 ≤ c := by
          unfold thinArchivePass1Step
          by_cases hmem : (parseSymbolLine l).1 ∈ st.unique
          · rw [if_neg (not_not_intro hmem)]
            by_cases hw : (parseSymbolLine l).2 = 'W'
            · rw [if_pos hw]; exact h2
            · rw [if_neg hw]
              show name ∈ (if (parseSymbolLine l).1 ∈ st.nonWeak then
                  insertSet (parseSymbolLine l).1 st.dups else st.dups) → 2 ≤ c
              by_cases hnw : (parseSymbolLine l).1 ∈ st.nonWeak
              · rw [if_pos hnw]
                intro hd
                rcases (insertSet_mem name _ _).mp hd with h | h
                · exact absurd h.symm hpn
                · exact h2 h
              · rw [if_neg hnw]; exact h2
          · rw [if_pos hmem]
            show name ∈ st.dups → 2 ≤ c
            exact h2
        have hmain := ih (thinArchivePass1Step st l) c hstep1 hstep2
        rw [hcount]
        exact hmain

/-- A symbol whose parsed name occurs exactly once in the dump ends up in
`unique_symbols_` and not among the duplicated symbols, so `QuerySymbol`
answers 0 for it whatever the file argument. -/
theorem thinArchive_unique_query (lines : List String) (ta : ThinArchive)
    (name : String)
    (hta : thinArchiveOfLines lines = .ok ta)
    (hcount : (lines.map (fun x => (parseSymbolLine x).1)).count name = 1) :
    ∀ f : String, querySymbol ta name f = 0 := by
  intro f
  have hinv := pass1_inv name lines ⟨[], [], []⟩ 0 (by simp) (by simp)
  have hu : name ∈ (thinArchivePass1 lines).unique := by
    unfold thinArchivePass1
    refine hinv.1.mpr ?_
    rw [hcount]
  have hd : name ∉ (thinArchivePass1 lines).dups := by
    intro h
    unfold thinArchivePass1 at h
    have := hinv.2 h
    rw [hcount] at this
    omega
  have hfil : name ∈ (thinArchivePass1 lines).unique.filter
      (fun s => decide (s ∉ (thinArchivePass1 lines).dups)) :=
    List.mem_filter.mpr ⟨hu, decide_eq_true hd⟩
  unfold thinArchiveOfLines at hta
  have hta2 : (match thinArchivePass2
      ((thinArchivePass1 lines).unique.filter
        (fun s => decide (s ∉ (thinArchivePass1 lines).dups)))
      ⟨"", [], []⟩ lines with
    | Except.error e => (Except.error e : Except KlpError ThinArchive)
    | Except.ok st => Except.ok
        ⟨(thinArchivePass1 lines).unique.filter
            (fun s => decide (s ∉ (thinArchivePass1 lines).dups)),
          st.dupMap⟩) = .ok ta := hta
  cases hp2 : thinArchivePass2
      ((thinArchivePass1 lines).unique.filter
        (fun s => decide (s ∉ (thinArchivePass1 lines).dups)))
      ⟨"", [], []⟩ lines with
  | error e =>
      rw [hp2] at hta2
      cases hta2
  | ok st =>
      rw [hp2] at hta2
      have hta3 : Except.ok
          (⟨(thinArchivePass1 lines).unique.filter
              (fun s => decide (s ∉ (thinArchivePass1 lines).dups)),
            st.dupMap⟩ : ThinArchive) = .ok ta := hta2
      cases hta3
      unfold querySymbol
      rw [if_pos hfil]

/-- C3 (amended): `QuerySymbol("helper","y.o") = 2`;
`QuerySymbol("helper","z.o") = 3`, not -1: the weak `z.o` line never
makes `helper` duplicated, but once `helper` is duplicated the second
constructor pass records the weak line's object file as a position too;
and for any symbol name whose parsed name appears exactly once in the
dump, `QuerySymbol` returns 0 for any file argument. -/
theorem thin_archive_positions :
    querySymbol exThinArchive ("helper") ("y.o") = 2 ∧
    querySymbol exThinArchive ("helper") ("z.o") = 3 ∧
    (∀ f : String, querySymbol exThinArchive ("unique") f = 0) ∧
    (∀ (lines : List String) (ta : ThinArchive) (name : String),
        thinArchiveOfLines lines = .ok ta →
        (lines.map (fun x => (parseSymbolLine x).1)).count name = 1 →
        ∀ f : String, querySymbol ta name f = 0) := by
  refine ⟨by decide, by decide, fun f => ?_, thinArchive_unique_query⟩
  unfold querySymbol
  rw [if_pos (show ("unique") ∈ exThinArchive.uniqueSymbols by decide)]

/-- Witness for `thin_archive_positions`: the symbol `unique` of the
scenario dump is found at position 0 for an arbitrary file argument. -/
theorem thin_archive_positions_witness :
    querySymbol exThinArchive ("unique") ("anything.o") = 0 :=
  thin_archive_positions.2.2.2 exThinLines exThinArchive ("unique") rfl
    (by decide) ("anything.o")
